import Mathlib

/-!
Verification of the `specified` data-validation library (TypeScript) against a
shallow embedding in Lean.  JavaScript runtime values are modelled by `Value`,
validation failures by `VFail`, specs by `Spec`, and each library function is
translated from the source (`src/spec.ts`, `src/validation_error.ts`, with the
built-in composite types of `src/type.ts` modelled from the specification where
the current source revision is not available).
-/

set_option maxHeartbeats 1000000

/-- A JavaScript runtime value, as seen by the validation engine. -/
inductive Value where
  | vundef : Value
  | vnull : Value
  | vbool : Bool → Value
  | vnum : Int → Value
  | vstr : String → Value
  | varr : List Value → Value
  | vobj : List (String × Value) → Value
deriving Repr

/-- An error key: an attribute name (string) or an array index (number). -/
inductive VKey where
  | str : String → VKey
  | idx : Nat → VKey
deriving Repr, DecidableEq

/-- A `ValidationFailure` record (src/validation_error.ts): code, offending value,
message, optional allowed description, optional key, optional nested failures. -/
inductive VFail where
  | mk : String → Value → String → Option Value → Option VKey → Option (List VFail) → VFail
deriving Repr

def VFail.code : VFail → String
  | .mk c _ _ _ _ _ => c

def VFail.value : VFail → Value
  | .mk _ v _ _ _ _ => v

def VFail.message : VFail → String
  | .mk _ _ m _ _ _ => m

def VFail.allowed : VFail → Option Value
  | .mk _ _ _ a _ _ => a

def VFail.key : VFail → Option VKey
  | .mk _ _ _ _ k _ => k

def VFail.nestedErrors : VFail → Option (List VFail)
  | .mk _ _ _ _ _ n => n

/-- Global options (src/spec.ts `GlobalOptions`): only `failEarly`, optional. -/
structure GlobalOptions where
  failEarly : Option Bool := none
deriving Repr, DecidableEq

/-- The local options recognised by the built-in types, each field optional
(absent field = key not present in the TypeScript options object). -/
structure LocalOpts where
  failEarly : Option Bool := none
  strict : Option Bool := none
  skipInvalid : Option Bool := none
  skipInvalidKeys : Option Bool := none
  skipInvalidValues : Option Bool := none
deriving Repr, DecidableEq

/-- The empty options object. -/
def LocalOpts.empty : LocalOpts := {}

/-- JavaScript object spread on options records: in the spread
`\x7b ...a, ...b \x7d` a key present in `b` wins over `a`. -/
def LocalOpts.merge (a b : LocalOpts) : LocalOpts where
  failEarly := b.failEarly <|> a.failEarly
  strict := b.strict <|> a.strict
  skipInvalid := b.skipInvalid <|> a.skipInvalid
  skipInvalidKeys := b.skipInvalidKeys <|> a.skipInvalidKeys
  skipInvalidValues := b.skipInvalidValues <|> a.skipInvalidValues

/-- `SpecOptions` (src/spec.ts): optional local options plus global options. -/
structure SpecOptions where
  local' : Option LocalOpts := none
  global : GlobalOptions := {}
deriving Repr, DecidableEq

/-- Resolution of the `failEarly` setting as done by every built-in composite
type: built-in default `false`, overridden by a present global setting,
overridden by a present local setting. -/
def resolvedFailEarly (o : SpecOptions) : Bool :=
  ((o.local'.bind LocalOpts.failEarly) <|> o.global.failEarly).getD false

/-- Resolution of a purely local boolean setting (strict / skipInvalid /
skipInvalidKeys / skipInvalidValues) with the given built-in default. -/
def resolvedLocal (field : LocalOpts → Option Bool) (dflt : Bool) (o : SpecOptions) : Bool :=
  ((o.local'.bind field)).getD dflt

/-- A constraint definition (src/spec.ts `ConstraintDefinition`). -/
structure ConstraintDef where
  name : String
  settings : Option Value := none
deriving Repr

/-- A spec definition tree (src/spec.ts `SpecDefinition`). -/
inductive SpecDef where
  | mk : String → Option (List (String × SpecDef)) → Option String →
      Option (List ConstraintDef) → Option LocalOpts → Option (List String) →
      Option Value → Option (List (String × String)) → SpecDef
deriving Repr

def SpecDef.type : SpecDef → String
  | .mk t _ _ _ _ _ _ _ => t

def SpecDef.nested : SpecDef → Option (List (String × SpecDef))
  | .mk _ n _ _ _ _ _ _ => n

def SpecDef.alias : SpecDef → Option String
  | .mk _ _ a _ _ _ _ _ => a

def SpecDef.constraints : SpecDef → Option (List ConstraintDef)
  | .mk _ _ _ c _ _ _ _ => c

def SpecDef.adjustments : SpecDef → Option LocalOpts
  | .mk _ _ _ _ a _ _ _ => a

def SpecDef.flags : SpecDef → Option (List String)
  | .mk _ _ _ _ _ f _ _ => f

def SpecDef.defaultValue : SpecDef → Option Value
  | .mk _ _ _ _ _ _ d _ => d

def SpecDef.descriptions : SpecDef → Option (List (String × String))
  | .mk _ _ _ _ _ _ _ d => d

/-- A leaf definition with only the type tag set. -/
def SpecDef.ofType (t : String) : SpecDef := .mk t none none none none none none none

/-- An evaluation result (src/spec.ts `EvalResult<T>`): either a failure record
or a success value; `Except.error` is the failure channel. -/
abbrev EvalResult (T : Type) := Except VFail T

/-- A spec (src/spec.ts `Spec`): protocol version tag, evaluation function and
static definition.  The version tag is `1` for every spec the library builds;
the combinators and `verify` refuse any other version. -/
structure Spec (T : Type) where
  version : Nat
  eval : Value → SpecOptions → EvalResult T
  definition : SpecDef

/-- A constraint (src/spec.ts `SpecConstraint`): its `eval` returns an optional
failure (`\x7b err?: ValidationFailure | null \x7d`). -/
structure SpecConstraint (T : Type) where
  version : Nat
  eval : T → Option VFail
  definition : ConstraintDef

/-! ## src/validation_error.ts -/

mutual
/-- `new ValidationError(ne.message, ne)` applied recursively: the
reconstruction the `ValidationError` constructor performs on nested failures.
Field for field it keeps `code`, `value`, `allowed` and `key`, keeps the
message, and rebuilds the children, turning an absent `nestedErrors` into the
empty list. -/
def veRebuild : VFail → VFail
  | .mk c v m a k n => .mk c v m a k (some (veRebuildOptList n))

def veRebuildOptList : Option (List VFail) → List VFail
  | none => []
  | some l => veRebuildList l

def veRebuildList : List VFail → List VFail
  | [] => []
  | f :: fs => veRebuild f :: veRebuildList fs
end

/-- The `ValidationError` constructor (src/validation_error.ts, lines 37-44):
`new ValidationError(message, options)` as the `ValidationFailure` data the
constructed error carries. -/
def validationError (message : String) (options : Option VFail) : VFail :=
  match options with
  | none => .mk "" Value.vundef message none none (some [])
  | some f => .mk f.code f.value message f.allowed f.key (some (veRebuildOptList f.nestedErrors))

/-- The default `errorClass` of `verify`: the `ValidationError` class. -/
def defaultErrorClass (message : String) (f : VFail) : VFail := validationError message (some f)

/-- Fully resolved report-inclusion options (`ErrorReportOptionsImpl`). -/
structure IncludeOpts where
  message : Bool
  code : Bool
  value : Bool
  allowed : Bool
deriving Repr, DecidableEq

/-- Caller-facing report options (`ErrorReportOptions`): every field optional. -/
structure ReportIncl where
  message : Option Bool := none
  code : Option Bool := none
  value : Option Bool := none
  allowed : Option Bool := none
deriving Repr, DecidableEq

/-- Caller-facing report options; the TypeScript field is named `include`,
which is a reserved word here, hence `incl`. -/
structure ReportOptions where
  incl : Option ReportIncl := none
deriving Repr, DecidableEq

/-- Option resolution done by `FormatValidationFailure.generateErrorPathList`:
`message` defaults to true (absent options / absent `include` / absent key),
the other three default to false. -/
def resolveReportOptions (o : Option ReportOptions) : IncludeOpts where
  message :=
    match o with
    | none => true
    | some ro =>
      match ro.incl with
      | none => true
      | some i =>
        match i.message with
        | none => true
        | some b => b
  code := (((o.bind ReportOptions.incl).bind ReportIncl.code)).getD false
  value := (((o.bind ReportOptions.incl).bind ReportIncl.value)).getD false
  allowed := (((o.bind ReportOptions.incl).bind ReportIncl.allowed)).getD false

/-- One entry of the flattened error path list. -/
structure PathEntry where
  path : List VKey
  msg : Option String := none
  code : Option String := none
  value : Option Value := none
  allowed : Option Value := none
deriving Repr

mutual
/-- `generateErrorPathListImpl` (src/validation_error.ts, lines 93-113):
if `nestedErrors` is present (even when empty) the failure contributes only its
descendants' entries, each path prefixed with the failure's own key when
present; otherwise one leaf entry is produced. -/
def genPathListImpl (o : IncludeOpts) : VFail → List PathEntry
  | .mk c v m a k n =>
    let pathKey : List VKey := match k with | some key => [key] | none => []
    match n with
    | some ns =>
      (genPathListImplL o ns).map (fun e =>
        { path := pathKey ++ e.path,
          msg := if o.message then e.msg else none,
          code := if o.code then e.code else none,
          value := if o.value then e.value else none,
          allowed := if o.allowed then e.allowed else none })
    | none =>
      [{ path := pathKey,
         msg := if o.message then some m else none,
         code := if o.code then some c else none,
         value := if o.value then some v else none,
         allowed := if o.allowed then a else none }]

def genPathListImplL (o : IncludeOpts) : List VFail → List PathEntry
  | [] => []
  | f :: fs => genPathListImpl o f ++ genPathListImplL o fs
end

/-- `FormatValidationFailure.generateErrorPathList(err, options?)`. -/
def generateErrorPathList (f : VFail) (o : Option ReportOptions := none) : List PathEntry :=
  genPathListImpl (resolveReportOptions o) f

/-! ## src/spec.ts (protocol version 1) -/

/-- Options accepted by `verify`: the configurable error class, constructible
from `(message, failure)`. -/
structure VerifyOptions where
  errorClass : String → VFail → VFail

def defaultVerifyOptions : VerifyOptions := ⟨defaultErrorClass⟩

/-- The result object returned by `verify`: the failure (or none) and the
`value()` accessor, which either returns the success value or throws the
constructed error (modelled as the `Except.error` channel). -/
structure VerifyResult (T : Type) where
  err : Option VFail
  value : Unit → Except VFail T

/-- `verify(spec, value, globalOptions, verifyOptions)` for a version-1 spec:
evaluates with no local options and only the given global options, and wraps
the outcome.  (A spec whose version is not 1 makes the real `verify` throw
before evaluating; the theorems below therefore carry a `version = 1`
hypothesis.) -/
def verify {T : Type} (S : Spec T) (v : Value) (g : GlobalOptions := {})
    (vo : VerifyOptions := defaultVerifyOptions) : VerifyResult T :=
  match S.eval v { local' := none, global := g } with
  | .error f => ⟨some f, fun _ => .error (vo.errorClass f.message f)⟩
  | .ok t => ⟨none, fun _ => .ok t⟩

def SpecDef.withAlias (d : SpecDef) (a : String) : SpecDef :=
  match d with
  | .mk t n _ c ad f dv ds => .mk t n (some a) c ad f dv ds

/-- `alias(aliasName, spec)`: overwrites the definition's alias, keeps eval. -/
def aliasSpec {T : Type} (aliasName : String) (S : Spec T) : Spec T :=
  ⟨1, S.eval, S.definition.withAlias aliasName⟩

/-- `removeAlias` (src/spec.ts): drops the alias from a definition. -/
def removeAlias (d : SpecDef) : SpecDef :=
  match d with
  | .mk t n _ c ad f dv ds => .mk t n none c ad f dv ds

def SpecDef.withConstraints (d : SpecDef) (cs : List ConstraintDef) : SpecDef :=
  match d with
  | .mk t n a _ ad f dv ds => .mk t n a (some cs) ad f dv ds

def SpecDef.withAdjustments (d : SpecDef) (ad : LocalOpts) : SpecDef :=
  match d with
  | .mk t n a c _ f dv ds => .mk t n a c (some ad) f dv ds

/-- The constraint-checking loop of `constrain`: runs each constraint in array
order against the candidate value, returning the first failure verbatim. -/
def constrainLoop {T : Type} : List (SpecConstraint T) → T → EvalResult T
  | [], t => .ok t
  | c :: rest, t =>
    match c.eval t with
    | some err => .error err
    | none => constrainLoop rest t

/-- `constrain(spec, constraints)` (src/spec.ts, lines 110-140): delegates to
the wrapped spec with the caller's full options; on success runs the
constraints; the definition concatenates constraint definitions and drops the
alias. -/
def constrain {T : Type} (S : Spec T) (cs : List (SpecConstraint T)) : Spec T where
  version := 1
  eval := fun v o =>
    match S.eval v o with
    | .error f => .error f
    | .ok t => constrainLoop cs t
  definition :=
    (removeAlias S.definition).withConstraints
      ((S.definition.constraints.getD []) ++ cs.map SpecConstraint.definition)

/-- `adjust(spec, adjustedOptions)` (src/spec.ts, lines 183-199): merges the
adjusted options underneath the caller's local options at evaluation time, and
merges them underneath the previously recorded adjustments in the definition. -/
def adjust {T : Type} (S : Spec T) (aOpts : LocalOpts) : Spec T where
  version := 1
  eval := fun v o =>
    S.eval v { local' := some (LocalOpts.merge aOpts (o.local'.getD LocalOpts.empty)),
               global := o.global }
  definition :=
    (removeAlias S.definition).withAdjustments
      (LocalOpts.merge aOpts (S.definition.adjustments.getD LocalOpts.empty))

/-- `definitionOf(spec)`. -/
def definitionOf {T : Type} (S : Spec T) : SpecDef := S.definition

/-! ### extractAliases -/

/-- The result tree of `_extractAliases`: either a stub `\x7b alias: name \x7d`
or a full definition node whose nested children are themselves results. -/
inductive ADef where
  | stub : String → ADef
  | node : String → Option (List (String × ADef)) → Option String →
      Option (List ConstraintDef) → Option LocalOpts → Option (List String) →
      Option Value → Option (List (String × String)) → ADef
deriving Repr

/-- The mutable `aliases` dictionary, as an insertion-ordered association list. -/
abbrev AliasMap := List (String × ADef)

/-- JavaScript object assignment `m[k] = v`: replaces the value in place when
the key exists, appends otherwise. -/
def AliasMap.upsert : AliasMap → String → ADef → AliasMap
  | [], k, v => [(k, v)]
  | (k', v') :: rest, k, v =>
    if k' = k then (k', v) :: rest else (k', v') :: AliasMap.upsert rest k v

/-- First-match association lookup. -/
def AliasMap.find : AliasMap → String → Option ADef
  | [], _ => none
  | (k', v') :: rest, k => if k' = k then some v' else AliasMap.find rest k

mutual
/-- `_extractAliases(def, aliases)` (src/spec.ts, lines 217-242): children are
alias-extracted first (threading the mutable map through them in key order);
then, if the node carries an alias, its expanded definition is recorded in the
map and a stub is returned; otherwise the expanded node is returned. -/
def exA : SpecDef → AliasMap → ADef × AliasMap
  | .mk t n a c ad f dv ds, m =>
    let p : Option (List (String × ADef)) × AliasMap := exAOpt n m
    let aliasedDefinition : ADef := ADef.node t p.1 a c ad f dv ds
    match a with
    | some name => (ADef.stub name, AliasMap.upsert p.2 name aliasedDefinition)
    | none => (aliasedDefinition, p.2)

def exAOpt : Option (List (String × SpecDef)) → AliasMap →
    Option (List (String × ADef)) × AliasMap
  | none, m => (none, m)
  | some l, m =>
    let p := exAList l m
    (some p.1, p.2)

def exAList : List (String × SpecDef) → AliasMap → List (String × ADef) × AliasMap
  | [], m => ([], m)
  | (k, d) :: rest, m =>
    let p := exA d m
    let q := exAList rest p.2
    ((k, p.1) :: q.1, q.2)
end

/-- `extractAliases(def)` (src/spec.ts, lines 236-242). -/
def extractAliases (d : SpecDef) : ADef × AliasMap := exA d []

/-! ### either -/

/-- The nested-definitions record of `either`: branch definitions keyed
`"1"`, `"2"`, ... in declaration order. -/
def eitherNested {T : Type} (specs : List (Spec T)) : List (String × SpecDef) :=
  specs.enum.map (fun p => (toString (p.1 + 1), p.2.definition))

/-- The evaluation loop of `either` (src/spec.ts, lines 261-275): each branch
is evaluated against the same input with only the global options; the first
success is returned verbatim; otherwise every branch failure is pushed, in
order, into the aggregate `either.no_matching_spec` failure. -/
def eitherLoop {T : Type} (v : Value) (g : GlobalOptions) :
    List (Spec T) → List VFail → EvalResult T
  | [], errs =>
    .error (.mk "either.no_matching_spec" v
      "Evaluation of value failed for every possible spec." none none (some errs))
  | s :: rest, errs =>
    match s.eval v { local' := none, global := g } with
    | .ok t => .ok t
    | .error f => eitherLoop v g rest (errs ++ [f])

/-- `either(...specs)` (src/spec.ts, lines 249-281). -/
def eitherSpec {T : Type} (specs : List (Spec T)) : Spec T where
  version := 1
  eval := fun v o => eitherLoop v o.global specs []
  definition := .mk "either" (some (eitherNested specs)) none none none none none none

/-! ## Built-in types (src/type.ts)

The version of `src/type.ts` that matches the current protocol (the one
exercised by `test/type.test.ts`) is not among the available sources — only
older revisions are.  The definitions below are therefore modelled from the
specification (section 4.2) and carry a `Modelled from the spec:` marker. -/

/-- Modelled from the spec: the leaf type `Type.number` of src/type.ts (current
revision missing): a single runtime type check, success with the value
unchanged, otherwise one leaf failure with a type-specific code. -/
def typeNumber : Spec Value where
  version := 1
  eval := fun v _ =>
    match v with
    | .vnum n => .ok (.vnum n)
    | _ => .error (.mk "type.number.not_a_number" v "Not a number." none none none)
  definition := .ofType "number"

/-- Modelled from the spec: the leaf type `Type.string` of src/type.ts (current
revision missing), with the string itself as success value (used as a map key
spec). -/
def typeString : Spec String where
  version := 1
  eval := fun v _ =>
    match v with
    | .vstr s => .ok s
    | _ => .error (.mk "type.string.not_a_string" v "Not a string." none none none)
  definition := .ofType "string"

/-- Modelled from the spec: `Type.string` as a `Value`-typed spec (for use in
schemas and arrays). -/
def typeStringV : Spec Value where
  version := 1
  eval := fun v _ =>
    match v with
    | .vstr s => .ok (.vstr s)
    | _ => .error (.mk "type.string.not_a_string" v "Not a string." none none none)
  definition := .ofType "string"

/-- One attribute of an object/interface schema: its spec, the optional
marker, the optional default value, and the optional description. -/
structure SchemaEntry where
  spec : Spec Value
  optional : Bool := false
  defaultValue : Option Value := none
  description : Option String := none

/-- A schema: attribute names with entries, in declaration order. -/
abbrev Schema := List (String × SchemaEntry)

/-- First-match lookup of an attribute in the input object's fields. -/
def lookupField : List (String × Value) → String → Option Value
  | [], _ => none
  | (k', v') :: rest, k => if k' = k then some v' else lookupField rest k

def schemaHas (schema : Schema) (k : String) : Bool :=
  schema.any (fun p => p.1 = k)

/-- The per-key extra-attribute failure of a strict object. -/
def extraAttrFail (k : String) (v : Value) : VFail :=
  .mk "type.object.extra_attribute" v "Extra attribute." none (some (.str k)) none

/-- The missing-attribute failure. -/
def missingAttrFail (attr : String) : VFail :=
  .mk "type.object.missing_attribute" Value.vundef "Attribute not present." none
    (some (.str attr)) none

/-- The wrapped invalid-attribute failure. -/
def invalidAttrFail (attr : String) (v : Value) (f : VFail) : VFail :=
  .mk "type.object.invalid_attribute" v "Evaluation of attribute failed." none
    (some (.str attr)) (some [f])

/-- Modelled from the spec: the strict extra-key scan of `Type.object`
(src/type.ts, current revision missing).  Input keys are scanned in iteration
order, each key not present in the schema produces its own failure, and the
scan respects fail-early. -/
def objExtraLoop (schema : Schema) (failEarly : Bool) :
    List (String × Value) → List VFail → List VFail
  | [], errs => errs
  | (k, v) :: rest, errs =>
    if failEarly && !errs.isEmpty then errs
    else if schemaHas schema k then objExtraLoop schema failEarly rest errs
    else objExtraLoop schema failEarly rest (errs ++ [extraAttrFail k v])

/-- Modelled from the spec: the schema-attribute scan of `Type.object`
(src/type.ts, current revision missing).  Attributes are visited in
declaration order; a missing non-optional undefaulted attribute records a
missing-attribute failure; a missing defaulted attribute is filled with the
default; a missing optional attribute is omitted; a present attribute is
evaluated against its spec (with only the global options), wrapping a failure
or copying the success into the model.  The scan stops once fail-early holds
and a failure has been retained. -/
def objAttrLoop (g : GlobalOptions) (failEarly : Bool) (fields : List (String × Value)) :
    Schema → List VFail → List (String × Value) → List VFail × List (String × Value)
  | [], errs, model => (errs, model)
  | (attr, se) :: rest, errs, model =>
    if failEarly && !errs.isEmpty then (errs, model)
    else
      match lookupField fields attr with
      | none =>
        if !se.optional && se.defaultValue.isNone then
          objAttrLoop g failEarly fields rest (errs ++ [missingAttrFail attr]) model
        else
          match se.defaultValue with
          | some d => objAttrLoop g failEarly fields rest errs (model ++ [(attr, d)])
          | none => objAttrLoop g failEarly fields rest errs model
      | some v =>
        match se.spec.eval v { local' := none, global := g } with
        | .ok t => objAttrLoop g failEarly fields rest errs (model ++ [(attr, t)])
        | .error f =>
          objAttrLoop g failEarly fields rest (errs ++ [invalidAttrFail attr v f]) model

/-- Modelled from the spec: `Type.object(schema)` of src/type.ts (current
revision missing).  Input must be a non-null, non-array keyed structure;
with `strict` resolved true (the object default) every extra input key yields
its own failure, evaluated before the attribute iteration; all per-key issues
accumulate into one list wrapped by `type.object.invalid_attribute_data`. -/
def typeObject (schema : Schema) : Spec Value where
  version := 1
  eval := fun data o =>
    let strict := resolvedLocal LocalOpts.strict true o
    let failEarly := resolvedFailEarly o
    match data with
    | .vobj fields =>
      let extraErrs := if strict then objExtraLoop schema failEarly fields [] else []
      let p := objAttrLoop o.global failEarly fields schema extraErrs []
      if p.1.isEmpty then .ok (.vobj p.2)
      else
        .error (.mk "type.object.invalid_attribute_data" data "Object validation failed."
          none none (some p.1))
    | _ =>
      .error (.mk "type.object.not_a_regular_object" data "Not a regular object."
        none none none)
  definition :=
    .mk "object" (some (schema.map (fun p => (p.1, p.2.spec.definition)))) none none none
      none none (some (schema.filterMap (fun p => p.2.description.map (fun d => (p.1, d)))))

/-- The wrapped invalid-element failure of an array, keyed by the index. -/
def invalidElemFail (i : Nat) (e : Value) (f : VFail) : VFail :=
  .mk "type.array.invalid_element" e "Evaluation of array element failed." none
    (some (.idx i)) (some [f])

/-- Modelled from the spec: the element scan of `Type.array` (src/type.ts,
current revision missing).  Elements are evaluated in index order against the
element spec (with only the global options); a failing element is dropped when
`skipInvalid` holds, otherwise wrapped keyed by its index; the scan stops once
fail-early holds and a failure has been retained. -/
def arrElemLoop (g : GlobalOptions) (failEarly skipInvalid : Bool) (S : Spec Value) :
    List Value → Nat → List VFail → List Value → List VFail × List Value
  | [], _, errs, out => (errs, out)
  | e :: rest, i, errs, out =>
    if failEarly && !errs.isEmpty then (errs, out)
    else
      match S.eval e { local' := none, global := g } with
      | .ok t => arrElemLoop g failEarly skipInvalid S rest (i + 1) errs (out ++ [t])
      | .error f =>
        if skipInvalid then arrElemLoop g failEarly skipInvalid S rest (i + 1) errs out
        else
          arrElemLoop g failEarly skipInvalid S rest (i + 1)
            (errs ++ [invalidElemFail i e f]) out

/-- Modelled from the spec: `Type.array(elementSpec)` of src/type.ts (current
revision missing). -/
def typeArray (S : Spec Value) : Spec Value where
  version := 1
  eval := fun data o =>
    let failEarly := resolvedFailEarly o
    let skipInvalid := resolvedLocal LocalOpts.skipInvalid false o
    match data with
    | .varr xs =>
      let p := arrElemLoop o.global failEarly skipInvalid S xs 0 [] []
      if p.1.isEmpty then .ok (.varr p.2)
      else
        .error (.mk "type.array.invalid_elements" data "Array validation failed."
          none none (some p.1))
    | _ => .error (.mk "type.array.not_an_array" data "Not an array." none none none)
  definition := .mk "array" (some [("element", S.definition)]) none none none none none none

/-- Modelled from the spec: the key/value scan of `Type.map` (src/type.ts,
current revision missing).  For each input key in iteration order the key
string is evaluated against the key spec; on key failure (unless
`skipInvalidKeys`) an invalid-key failure keyed by the original key is
recorded and the value is not evaluated; on key success the value is evaluated
against the value spec; on value failure (unless `skipInvalidValues`) an
invalid-value failure is recorded and the pair is dropped; on success the
(possibly key-transformed) pair is inserted.  Nested evaluations receive only
the global options. -/
def mapLoop (g : GlobalOptions) (failEarly skipK skipV : Bool)
    (K : Spec String) (V : Spec Value) :
    List (String × Value) → List VFail → List (String × Value) →
      List VFail × List (String × Value)
  | [], errs, out => (errs, out)
  | (dk, dv) :: rest, errs, out =>
    if failEarly && !errs.isEmpty then (errs, out)
    else
      match K.eval (.vstr dk) { local' := none, global := g } with
      | .error f =>
        if skipK then mapLoop g failEarly skipK skipV K V rest errs out
        else
          mapLoop g failEarly skipK skipV K V rest
            (errs ++ [.mk "type.map.invalid_key" (.vstr dk) "Evaluation of map key failed."
              none (some (.str dk)) (some [f])]) out
      | .ok rk =>
        match V.eval dv { local' := none, global := g } with
        | .error f =>
          if skipV then mapLoop g failEarly skipK skipV K V rest errs out
          else
            mapLoop g failEarly skipK skipV K V rest
              (errs ++ [.mk "type.map.invalid_value" dv "Evaluation of map value failed."
                none (some (.str dk)) (some [f])]) out
        | .ok t => mapLoop g failEarly skipK skipV K V rest errs (out ++ [(rk, t)])

/-- Modelled from the spec: `Type.map(keySpec, valueSpec)` of src/type.ts
(current revision missing). -/
def typeMap (K : Spec String) (V : Spec Value) : Spec Value where
  version := 1
  eval := fun data o =>
    let failEarly := resolvedFailEarly o
    let skipK := resolvedLocal LocalOpts.skipInvalidKeys false o
    let skipV := resolvedLocal LocalOpts.skipInvalidValues false o
    match data with
    | .vobj fields =>
      let p := mapLoop o.global failEarly skipK skipV K V fields [] []
      if p.1.isEmpty then .ok (.vobj p.2)
      else
        .error (.mk "type.map.invalid_data" data "Map validation failed." none none
          (some p.1))
    | _ =>
      .error (.mk "type.map.not_a_regular_object" data "Not a regular object." none
        none none)
  definition :=
    .mk "map" (some [("key", K.definition), ("value", V.definition)]) none none none
      none none none

/-! ## Claim-side characterisations (written from the specification's words,
to be compared with the source translations above) -/

mutual
/-- Claim side: the returned definition tree of `extractAliases`, in which
every node carrying an alias is replaced by the stub, and the children of an
unaliased node are processed recursively. -/
def stubify : SpecDef → ADef
  | .mk _ _ (some name) _ _ _ _ _ => ADef.stub name
  | .mk t n none c ad f dv ds => ADef.node t (stubifyOpt n) none c ad f dv ds

def stubifyOpt : Option (List (String × SpecDef)) → Option (List (String × ADef))
  | none => none
  | some l => some (stubifyList l)

def stubifyList : List (String × SpecDef) → List (String × ADef)
  | [] => []
  | (k, d) :: rest => (k, stubify d) :: stubifyList rest
end

/-- Claim side: a node's fully-expanded definition as recorded in the alias
mapping — its own fields kept (including the alias), its nested children
alias-extracted. -/
def expandDef : SpecDef → ADef
  | .mk t n a c ad f dv ds => ADef.node t (stubifyOpt n) a c ad f dv ds

mutual
/-- Claim side: which expansion ends up recorded in the aliases mapping for
name `a` inside a definition tree: the node itself when it carries alias `a`
(the outer occurrence wins over any repeats nested more deeply inside it),
otherwise the record of the last child subtree containing an occurrence. -/
def recordedAlias (a : String) : SpecDef → Option ADef
  | .mk t n al c ad f dv ds =>
    if al = some a then some (ADef.node t (stubifyOpt n) al c ad f dv ds)
    else recordedAliasOpt a n

def recordedAliasOpt (a : String) : Option (List (String × SpecDef)) → Option ADef
  | none => none
  | some l => recordedAliasList a l

def recordedAliasList (a : String) : List (String × SpecDef) → Option ADef
  | [] => none
  | (_, d) :: rest =>
    match recordedAliasList a rest with
    | some r => some r
    | none => recordedAlias a d
end

mutual
/-- Whether some node of the definition tree carries alias `a`. -/
def hasAliasOcc (a : String) : SpecDef → Bool
  | .mk _ n al _ _ _ _ _ => al = some a || hasAliasOccOpt a n

def hasAliasOccOpt (a : String) : Option (List (String × SpecDef)) → Bool
  | none => false
  | some l => hasAliasOccList a l

def hasAliasOccList (a : String) : List (String × SpecDef) → Bool
  | [] => false
  | (_, d) :: rest => hasAliasOcc a d || hasAliasOccList a rest
end

/-- One flattened entry with its full leaf data (claim side, before the
include-options projection). -/
structure LeafEntry where
  path : List VKey
  msg : String
  code : String
  value : Value
  allowed : Option Value
deriving Repr

mutual
/-- Claim side: the flattened error path list — exactly one entry per leaf
failure (a failure without `nestedErrors`), each entry's path being the
concatenation of the keys from the root down to that leaf (absent keys
contributing nothing), a failure with `nestedErrors` contributing only its
descendants' entries, each prefixed by its own key, in `nestedErrors` order. -/
def specLeafEntries : VFail → List LeafEntry
  | .mk c v m a k n =>
    let pathKey : List VKey := match k with | some key => [key] | none => []
    match n with
    | none => [⟨pathKey, m, c, v, a⟩]
    | some ns =>
      (specLeafEntriesL ns).map (fun e => { e with path := pathKey ++ e.path })

def specLeafEntriesL : List VFail → List LeafEntry
  | [] => []
  | f :: fs => specLeafEntries f ++ specLeafEntriesL fs
end

mutual
/-- The number of leaf failures (failures without `nestedErrors`). -/
def leafCount : VFail → Nat
  | .mk _ _ _ _ _ none => 1
  | .mk _ _ _ _ _ (some ns) => leafCountL ns

def leafCountL : List VFail → Nat
  | [] => 0
  | f :: fs => leafCount f + leafCountL fs
end

/-- The include-options projection applied to a full leaf entry. -/
def projectEntry (o : IncludeOpts) (e : LeafEntry) : PathEntry where
  path := e.path
  msg := if o.message then some e.msg else none
  code := if o.code then some e.code else none
  value := if o.value then some e.value else none
  allowed := if o.allowed then e.allowed else none

/-- Claim side: the per-key failures a strict object reports for input keys
that are not part of the schema, one per extra key, in input-key iteration
order. -/
def extrasOfFields (schema : Schema) (fields : List (String × Value)) : List VFail :=
  (fields.filter (fun p => !(schemaHas schema p.1))).map (fun p => extraAttrFail p.1 p.2)

/-- Claim side: the missing/invalid attribute failures of an object scan, in
schema declaration order. -/
def attrErrsOf (g : GlobalOptions) (fields : List (String × Value)) (schema : Schema) :
    List VFail :=
  schema.filterMap (fun p =>
    match lookupField fields p.1 with
    | none =>
      if !p.2.optional && p.2.defaultValue.isNone then some (missingAttrFail p.1) else none
    | some v =>
      match p.2.spec.eval v { local' := none, global := g } with
      | .ok _ => none
      | .error f => some (invalidAttrFail p.1 v f))

/-- Claim side: the successfully-built output object of an object scan. -/
def modelOf (g : GlobalOptions) (fields : List (String × Value)) (schema : Schema) :
    List (String × Value) :=
  schema.filterMap (fun p =>
    match lookupField fields p.1 with
    | none => p.2.defaultValue.map (fun d => (p.1, d))
    | some v =>
      match p.2.spec.eval v { local' := none, global := g } with
      | .ok t => some (p.1, t)
      | .error _ => none)

/-- Claim side: the successfully-evaluated elements of an array input, in
their relative order. -/
def arraySuccesses (g : GlobalOptions) (S : Spec Value) (xs : List Value) : List Value :=
  xs.filterMap (fun x => (S.eval x { local' := none, global := g }).toOption)

/-- Claim side: the wrapped per-element failures of an exhaustive array scan,
keyed by element index. -/
def arrayFailuresFrom (g : GlobalOptions) (S : Spec Value) : List Value → Nat → List VFail
  | [], _ => []
  | x :: rest, i =>
    match S.eval x { local' := none, global := g } with
    | .ok _ => arrayFailuresFrom g S rest (i + 1)
    | .error f => invalidElemFail i x f :: arrayFailuresFrom g S rest (i + 1)

/-- Two specs that behave identically when evaluated with no local options and
the given global options. -/
def EvalAgree (g : GlobalOptions) {T : Type} (S S' : Spec T) : Prop :=
  ∀ w, S.eval w { local' := none, global := g } = S'.eval w { local' := none, global := g }

/-- Pointwise agreement of two schemas: same attribute names, optional
markers and default values, and attribute specs that agree under the given
global options. -/
def SchemaAgree (g : GlobalOptions) (schema schema' : Schema) : Prop :=
  List.Forall₂ (fun p q => p.1 = q.1 ∧ p.2.optional = q.2.optional ∧
    p.2.defaultValue = q.2.defaultValue ∧ EvalAgree g p.2.spec q.2.spec) schema schema'

/-- Deep sameness of the data carried by two failures: equal `code`, `value`,
`message` and `key` at every level, with an absent child list and an empty
child list identified (the reconstructed error always materialises the
list). -/
inductive SameFailureData : VFail → VFail → Prop where
  | mk {c : String} {v : Value} {m : String} {a a' : Option Value} {k : Option VKey}
      {n n' : Option (List VFail)} :
      List.Forall₂ SameFailureData (n.getD []) (n'.getD []) →
      SameFailureData (.mk c v m a k n) (.mk c v m a' k n')

/-! ## Helper lemmas -/

theorem optOr_none {α : Type} (x : Option α) : (x <|> none) = x := by
  cases x <;> rfl

theorem optOr_assoc {α : Type} (x y z : Option α) :
    ((x <|> y) <|> z) = (x <|> (y <|> z)) := by
  cases x <;> rfl

theorem find_upsert_self : ∀ (m : AliasMap) (k : String) (v : ADef),
    (m.upsert k v).find k = some v
  | [], k, v => by simp [AliasMap.upsert, AliasMap.find]
  | (k', v') :: rest, k, v => by
    by_cases h : k' = k
    · simp [AliasMap.upsert, h, AliasMap.find]
    · simp [AliasMap.upsert, h, AliasMap.find, find_upsert_self rest k v]

theorem find_upsert_other : ∀ (m : AliasMap) (k : String) (v : ADef) (a : String),
    a ≠ k → (m.upsert k v).find a = m.find a
  | [], k, v, a, h => by simp [AliasMap.upsert, AliasMap.find, Ne.symm h]
  | (k', v') :: rest, k, v, a, h => by
    by_cases h' : k' = k
    · subst h'
      simp [AliasMap.upsert, AliasMap.find, Ne.symm h]
    · by_cases h'' : k' = a
      · subst h''
        simp [AliasMap.upsert, h', AliasMap.find]
      · simp [AliasMap.upsert, h', AliasMap.find, h'', find_upsert_other rest k v a h]

/-! ## C10: empty nested error lists -/

theorem genPathList_empty_nested (c : String) (v : Value) (m : String) (a : Option Value)
    (k : Option VKey) (o : IncludeOpts) :
    genPathListImpl o (.mk c v m a k (some [])) = [] := by
  simp [genPathListImpl, genPathListImplL]

/-- C10: a failure whose `nestedErrors` field is present but empty produces an
empty error path list — no entry for the failure itself; and every
`ValidationError` constructed without nested errors carries `nestedErrors`
equal to the empty array, so formatting such a leaf error yields zero path
entries. -/
theorem claim_C10 :
    (∀ (f : VFail) (o : Option ReportOptions), f.nestedErrors = some [] →
      generateErrorPathList f o = []) ∧
    (∀ (msg : String) (opt : Option VFail) (o : Option ReportOptions),
      opt.bind VFail.nestedErrors = none →
      (validationError msg opt).nestedErrors = some [] ∧
        generateErrorPathList (validationError msg opt) o = []) := by
  constructor
  · intro f o hf
    cases f with
    | mk c v m a k n =>
      cases n with
      | none => simp [VFail.nestedErrors] at hf
      | some l =>
        simp [VFail.nestedErrors] at hf
        subst hf
        exact genPathList_empty_nested c v m a k (resolveReportOptions o)
  · intro msg opt o hopt
    cases opt with
    | none =>
      refine ⟨rfl, ?_⟩
      exact genPathList_empty_nested "" Value.vundef msg none none (resolveReportOptions o)
    | some f =>
      cases f with
      | mk c v m a k n =>
        simp [Option.bind, VFail.nestedErrors] at hopt
        subst hopt
        refine ⟨rfl, ?_⟩
        simpa [validationError, VFail.code, VFail.value, VFail.allowed, VFail.key,
          VFail.nestedErrors, veRebuildOptList] using
          genPathList_empty_nested c v msg a k (resolveReportOptions o)

/-- C10 witness: a concrete aggregate failure with an empty nested list, and a
concrete `ValidationError` built without nested errors. -/
theorem claim_C10_witness :
    generateErrorPathList (.mk "c" Value.vnull "m" none none (some [])) none = [] ∧
      (validationError "boom" none).nestedErrors = some [] ∧
      generateErrorPathList (validationError "boom" none) none = [] := by
  refine ⟨claim_C10.1 (.mk "c" Value.vnull "m" none none (some [])) none rfl, ?_, ?_⟩
  · exact (claim_C10.2 "boom" none none rfl).1
  · exact (claim_C10.2 "boom" none none rfl).2

/-! ## C8: the error path list flattens to one entry per leaf -/

theorem projectEntry_prefix (o : IncludeOpts) (pk : List VKey) (e : LeafEntry) :
    ({ path := pk ++ (projectEntry o e).path,
       msg := if o.message then (projectEntry o e).msg else none,
       code := if o.code then (projectEntry o e).code else none,
       value := if o.value then (projectEntry o e).value else none,
       allowed := if o.allowed then (projectEntry o e).allowed else none } : PathEntry) =
      projectEntry o { e with path := pk ++ e.path } := by
  cases hm : o.message <;> cases hc : o.code <;> cases hv : o.value <;>
    cases ha : o.allowed <;> simp [projectEntry, hm, hc, hv, ha]

mutual
theorem genPathListImpl_eq (o : IncludeOpts) :
    ∀ f : VFail, genPathListImpl o f = (specLeafEntries f).map (projectEntry o)
  | .mk c v m a k none => by
    simp [genPathListImpl, specLeafEntries, projectEntry]
  | .mk c v m a k (some ns) => by
    simp only [genPathListImpl, specLeafEntries]
    rw [genPathListImplL_eq o ns]
    simp only [List.map_map]
    apply List.map_congr_left
    intro e _
    exact projectEntry_prefix o (match k with | some key => [key] | none => []) e

theorem genPathListImplL_eq (o : IncludeOpts) :
    ∀ fs : List VFail, genPathListImplL o fs = (specLeafEntriesL fs).map (projectEntry o)
  | [] => rfl
  | f :: fs => by
    simp only [genPathListImplL, specLeafEntriesL, List.map_append]
    rw [genPathListImpl_eq o f, genPathListImplL_eq o fs]
end

mutual
theorem specLeafEntries_length :
    ∀ f : VFail, (specLeafEntries f).length = leafCount f
  | .mk c v m a k none => by simp [specLeafEntries, leafCount]
  | .mk c v m a k (some ns) => by
    simp [specLeafEntries, leafCount, specLeafEntriesL_length ns]

theorem specLeafEntriesL_length :
    ∀ fs : List VFail, (specLeafEntriesL fs).length = leafCountL fs
  | [] => rfl
  | f :: fs => by
    simp [specLeafEntriesL, leafCountL, specLeafEntries_length f, specLeafEntriesL_length fs]
end

/-- C8: `generateErrorPathList` returns exactly the flattened list described by
the spec — one entry per leaf failure, whose path is the concatenation of the
keys from the root down to that leaf, aggregator failures contributing no
entry of their own, in `nestedErrors` order — projected through the
include options. -/
theorem claim_C8 (f : VFail) (ro : Option ReportOptions) :
    generateErrorPathList f ro =
        (specLeafEntries f).map (projectEntry (resolveReportOptions ro)) ∧
      (specLeafEntries f).length = leafCount f := by
  exact ⟨genPathListImpl_eq (resolveReportOptions ro) f, specLeafEntries_length f⟩


/-! ## C1: verify — exactly one failure channel -/

mutual
theorem veRebuild_sameData : ∀ f : VFail, SameFailureData (veRebuild f) f
  | .mk c v m a k n => by
    simp only [veRebuild]
    exact SameFailureData.mk (by simpa using veRebuildOpt_sameData n)

theorem veRebuildOpt_sameData : ∀ n : Option (List VFail),
    List.Forall₂ SameFailureData (veRebuildOptList n) (n.getD [])
  | none => by simp [veRebuildOptList]
  | some l => by simpa [veRebuildOptList] using veRebuildList_sameData l

theorem veRebuildList_sameData : ∀ fs : List VFail,
    List.Forall₂ SameFailureData (veRebuildList fs) fs
  | [] => by simp [veRebuildList]
  | f :: fs => by
    simp only [veRebuildList]
    exact List.Forall₂.cons (veRebuild_sameData f) (veRebuildList_sameData fs)
end

theorem defaultErrorClass_sameData (f : VFail) :
    SameFailureData (defaultErrorClass f.message f) f := by
  cases f with
  | mk c v m a k n =>
    simp only [defaultErrorClass, validationError, VFail.code, VFail.value, VFail.message,
      VFail.allowed, VFail.key, VFail.nestedErrors]
    exact SameFailureData.mk (by simpa using veRebuildOpt_sameData n)

/-- C1: for every version-1 spec, value, global options and error class,
exactly one of two outcomes holds: either `err` is null, `value()` returns the
evaluation's success value and never throws; or `err` is the evaluation's
failure and every `value()` call throws the error built by the configured
error class from `(err.message, err)` — which, for the default
`ValidationError` class, carries the same `code`, `value`, `message`, `key`
and nested-error data as `err` at every depth.  Repeated `value()` calls give
equal results in both cases. -/
theorem claim_C1 {T : Type} (S : Spec T) (_hver : S.version = 1) (v : Value)
    (g : GlobalOptions) (ec : String → VFail → VFail) :
    ((∃ t, S.eval v { local' := none, global := g } = .ok t ∧
        (verify S v g ⟨ec⟩).err = none ∧
        ∀ u : Unit, (verify S v g ⟨ec⟩).value u = .ok t) ∨
      (∃ f, S.eval v { local' := none, global := g } = .error f ∧
        (verify S v g ⟨ec⟩).err = some f ∧
        (∀ u : Unit, (verify S v g ⟨ec⟩).value u = .error (ec f.message f)) ∧
        SameFailureData (defaultErrorClass f.message f) f)) ∧
    ((verify S v g ⟨ec⟩).err = none →
      ∀ u : Unit, ∃ t, (verify S v g ⟨ec⟩).value u = .ok t) ∧
    (∀ f, (verify S v g ⟨ec⟩).err = some f →
      ∀ u : Unit, (verify S v g ⟨ec⟩).value u = .error (ec f.message f)) ∧
    (∀ u u' : Unit, (verify S v g ⟨ec⟩).value u = (verify S v g ⟨ec⟩).value u') := by
  cases hE : S.eval v { local' := none, global := g } with
  | ok t =>
    refine ⟨Or.inl ⟨t, rfl, ?_, ?_⟩, ?_, ?_, ?_⟩ <;>
      simp [verify, hE]
  | error f =>
    refine ⟨Or.inr ⟨f, rfl, ?_, ?_, defaultErrorClass_sameData f⟩, ?_, ?_, ?_⟩ <;>
      simp [verify, hE]

/-- C1 witness: the claim applied to the number leaf type at a success input
and at a failure input, with the default error class. -/
theorem claim_C1_witness :
    (verify typeNumber (Value.vnum 3) {} defaultVerifyOptions).err = none ∧
      (verify typeNumber (Value.vstr "x") {} defaultVerifyOptions).value () =
        .error (defaultErrorClass "Not a number." (.mk "type.number.not_a_number"
          (Value.vstr "x") "Not a number." none none none)) := by
  constructor
  · rcases (claim_C1 typeNumber rfl (Value.vnum 3) {} defaultErrorClass).1 with
      ⟨t, _, herr, _⟩ | ⟨f, hf, _, _, _⟩
    · exact herr
    · rw [show typeNumber.eval (Value.vnum 3) { local' := none, global := {} } =
        .ok (Value.vnum 3) from rfl] at hf
      cases hf
  · rcases (claim_C1 typeNumber rfl (Value.vstr "x") {} defaultErrorClass).1 with
      ⟨t, ht, _, _⟩ | ⟨f, hf, _, hval, _⟩
    · rw [show typeNumber.eval (Value.vstr "x") { local' := none, global := {} } =
        .error (.mk "type.number.not_a_number" (Value.vstr "x") "Not a number."
          none none none) from rfl] at ht
      cases ht
    · rw [show typeNumber.eval (Value.vstr "x") { local' := none, global := {} } =
        .error (.mk "type.number.not_a_number" (Value.vstr "x") "Not a number."
          none none none) from rfl] at hf
      cases hf
      exact hval ()

/-! ## C7: constrain — delegate, then short-circuit over constraints -/

theorem constrainLoop_allPass {T : Type} (t : T) :
    ∀ cs : List (SpecConstraint T), (∀ c ∈ cs, c.eval t = none) → constrainLoop cs t = .ok t
  | [], _ => rfl
  | c :: rest, h => by
    have hc := h c (List.mem_cons_self c rest)
    simp only [constrainLoop, hc]
    exact constrainLoop_allPass t rest (fun c' hc' => h c' (List.mem_cons_of_mem c hc'))

theorem constrainLoop_append_pass {T : Type} (t : T) :
    ∀ (pre rest : List (SpecConstraint T)), (∀ c ∈ pre, c.eval t = none) →
      constrainLoop (pre ++ rest) t = constrainLoop rest t
  | [], rest, _ => rfl
  | c :: pre, rest, h => by
    have hc := h c (List.mem_cons_self c pre)
    simp only [List.cons_append, constrainLoop, hc]
    exact constrainLoop_append_pass t pre rest (fun c' hc' => h c' (List.mem_cons_of_mem c hc'))

/-- C7: `constrain(spec, constraints)` first evaluates the wrapped spec (with
the caller's full options); a spec failure is returned unchanged and no
constraint runs (the result does not depend on the constraints at all); on
spec success the constraints run in array order, the first failing
constraint's failure is returned verbatim and later constraints are never
consulted (the result does not depend on them); when all constraints pass the
original success is returned. -/
theorem claim_C7 {T : Type} (S : Spec T) (cs : List (SpecConstraint T)) (v : Value)
    (o : SpecOptions) (_hver : S.version = 1) (_hcver : ∀ c ∈ cs, c.version = 1) :
    (∀ f, S.eval v o = .error f →
      (constrain S cs).eval v o = .error f ∧
        ∀ cs' : List (SpecConstraint T), (constrain S cs').eval v o = .error f) ∧
    (∀ t, S.eval v o = .ok t →
      ((∀ c ∈ cs, c.eval t = none) → (constrain S cs).eval v o = .ok t) ∧
      (∀ pre c post err, cs = pre ++ c :: post → (∀ c' ∈ pre, c'.eval t = none) →
        c.eval t = some err →
        (constrain S cs).eval v o = .error err ∧
          ∀ post' : List (SpecConstraint T),
            (constrain S (pre ++ c :: post')).eval v o = .error err)) := by
  constructor
  · intro f hf
    constructor
    · simp [constrain, hf]
    · intro cs'
      simp [constrain, hf]
  · intro t ht
    constructor
    · intro hall
      simp [constrain, ht, constrainLoop_allPass t cs hall]
    · intro pre c post err hsplit hpre hc
      constructor
      · subst hsplit
        simp only [constrain, ht]
        rw [constrainLoop_append_pass t pre (c :: post) hpre]
        simp [constrainLoop, hc]
      · intro post'
        simp only [constrain, ht]
        rw [constrainLoop_append_pass t pre (c :: post') hpre]
        simp [constrainLoop, hc]

/-- C7 witness: a concrete constrained spec where the first constraint fails:
the wrapped number spec succeeds on 7, the first constraint rejects it, and
the second constraint is never consulted. -/
theorem claim_C7_witness :
    (constrain typeNumber
        [⟨1, fun _ => some (.mk "constraint.first" (Value.vnum 7) "First fails." none none none), ⟨"first", none⟩⟩,
         ⟨1, fun _ => none, ⟨"second", none⟩⟩]).eval (Value.vnum 7)
        { local' := none, global := {} } =
      .error (.mk "constraint.first" (Value.vnum 7) "First fails." none none none) := by
  have h := (claim_C7 typeNumber
    [⟨1, fun _ => some (.mk "constraint.first" (Value.vnum 7) "First fails." none none none), ⟨"first", none⟩⟩,
     ⟨1, fun _ => none, ⟨"second", none⟩⟩] (Value.vnum 7)
    { local' := none, global := {} } rfl
    (by
      intro c hc
      rcases List.mem_cons.mp hc with rfl | hc2
      · rfl
      rcases List.mem_cons.mp hc2 with rfl | hc3
      · rfl
      cases hc3)).2 (Value.vnum 7) rfl
  exact (h.2 []
    ⟨1, fun _ => some (.mk "constraint.first" (Value.vnum 7) "First fails." none none none), ⟨"first", none⟩⟩
    [⟨1, fun _ => none, ⟨"second", none⟩⟩]
    (.mk "constraint.first" (Value.vnum 7) "First fails." none none none)
    rfl (by intro c' hc'; cases hc') rfl).1

/-! ## C2: either — first success wins, exhaustive failure aggregation -/

theorem eitherLoop_all_fail {T : Type} (v : Value) (g : GlobalOptions) :
    ∀ (specs : List (Spec T)) (errs : List VFail),
      List.Forall₂ (fun (sp : Spec T) (f : VFail) =>
        sp.eval v { local' := none, global := g } = .error f) specs errs →
      ∀ acc : List VFail, eitherLoop v g specs acc =
        .error (.mk "either.no_matching_spec" v
          "Evaluation of value failed for every possible spec." none none
          (some (acc ++ errs)))
  | _, _, List.Forall₂.nil, acc => by simp [eitherLoop]
  | _, _, List.Forall₂.cons hsf hrest, acc => by
    rename_i s f specs' errs'
    simp only [eitherLoop, hsf]
    rw [eitherLoop_all_fail v g specs' errs' hrest (acc ++ [f])]
    simp

theorem eitherLoop_prefix_fail {T : Type} (v : Value) (g : GlobalOptions) :
    ∀ (pre : List (Spec T)), (∀ p ∈ pre, ∃ f, p.eval v { local' := none, global := g } = .error f) →
      ∀ (rest : List (Spec T)) (acc : List VFail),
        ∃ acc', eitherLoop v g (pre ++ rest) acc = eitherLoop v g rest acc'
  | [], _, rest, acc => ⟨acc, rfl⟩
  | p :: pre, h, rest, acc => by
    obtain ⟨f, hf⟩ := h p (List.mem_cons_self p pre)
    simp only [List.cons_append, eitherLoop, hf]
    exact eitherLoop_prefix_fail v g pre
      (fun p' hp' => h p' (List.mem_cons_of_mem p hp')) rest (acc ++ [f])

/-- C2: `either(...)` evaluates the branches in declaration order against the
same input (each with only the global options), returns the first success
verbatim without consulting any later branch (the result does not depend on
the branches after the first success), and — regardless of the local options,
hence regardless of a locally adjusted `failEarly` — when every branch fails
it aggregates every branch failure in declaration order into one
`either.no_matching_spec` failure. -/
theorem claim_C2 {T : Type} (specs : List (Spec T)) (v : Value) (o : SpecOptions)
    (_hvers : ∀ s ∈ specs, s.version = 1) :
    (∀ l' : Option LocalOpts, (eitherSpec specs).eval v o =
      (eitherSpec specs).eval v { local' := l', global := o.global }) ∧
    (∀ (pre : List (Spec T)) (s : Spec T) (post : List (Spec T)) (t : T),
      specs = pre ++ s :: post →
      (∀ p ∈ pre, ∃ f, p.eval v { local' := none, global := o.global } = .error f) →
      s.eval v { local' := none, global := o.global } = .ok t →
      (eitherSpec specs).eval v o = .ok t ∧
        ∀ post' : List (Spec T), (eitherSpec (pre ++ s :: post')).eval v o = .ok t) ∧
    (∀ errs : List VFail,
      List.Forall₂ (fun (sp : Spec T) (f : VFail) =>
        sp.eval v { local' := none, global := o.global } = .error f) specs errs →
      (eitherSpec specs).eval v o =
        .error (.mk "either.no_matching_spec" v
          "Evaluation of value failed for every possible spec." none none (some errs))) := by
  refine ⟨fun l' => rfl, ?_, ?_⟩
  · intro pre s post t hsplit hpre hs
    subst hsplit
    constructor
    · show eitherLoop v o.global (pre ++ s :: post) [] = .ok t
      obtain ⟨acc', hacc⟩ := eitherLoop_prefix_fail v o.global pre hpre (s :: post) []
      rw [hacc]
      simp [eitherLoop, hs]
    · intro post'
      show eitherLoop v o.global (pre ++ s :: post') [] = .ok t
      obtain ⟨acc', hacc⟩ := eitherLoop_prefix_fail v o.global pre hpre (s :: post') []
      rw [hacc]
      simp [eitherLoop, hs]
  · intro errs hall
    show eitherLoop v o.global specs [] = _
    rw [eitherLoop_all_fail v o.global specs errs hall []]
    simp

/-- C2 witness: `either(number, string)` on a string input succeeds through
the second branch even with fail-early set locally and globally; on a
boolean input both branch failures are aggregated in order. -/
theorem claim_C2_witness :
    (eitherSpec [typeNumber, typeStringV]).eval (Value.vstr "abc")
        { local' := some { failEarly := some true },
          global := { failEarly := some true } } = .ok (Value.vstr "abc") ∧
      (eitherSpec [typeNumber, typeStringV]).eval (Value.vbool true)
          { local' := some { failEarly := some true },
            global := { failEarly := some true } } =
        .error (.mk "either.no_matching_spec" (Value.vbool true)
          "Evaluation of value failed for every possible spec." none none
          (some [.mk "type.number.not_a_number" (Value.vbool true) "Not a number."
              none none none,
            .mk "type.string.not_a_string" (Value.vbool true) "Not a string."
              none none none])) := by
  constructor
  · exact ((claim_C2 [typeNumber, typeStringV] (Value.vstr "abc")
      { local' := some { failEarly := some true }, global := { failEarly := some true } }
      (by
        intro s hs
        rcases List.mem_cons.mp hs with rfl | hs2
        · rfl
        rcases List.mem_cons.mp hs2 with rfl | hs3
        · rfl
        cases hs3)).2.1 [typeNumber] typeStringV [] (Value.vstr "abc") rfl
      (by
        intro p hp
        rcases List.mem_cons.mp hp with rfl | hp2
        · exact ⟨_, rfl⟩
        cases hp2)
      rfl).1
  · exact (claim_C2 [typeNumber, typeStringV] (Value.vbool true)
      { local' := some { failEarly := some true }, global := { failEarly := some true } }
      (by
        intro s hs
        rcases List.mem_cons.mp hs with rfl | hs2
        · rfl
        rcases List.mem_cons.mp hs2 with rfl | hs3
        · rfl
        cases hs3)).2.2
      [.mk "type.number.not_a_number" (Value.vbool true) "Not a number." none none none,
       .mk "type.string.not_a_string" (Value.vbool true) "Not a string." none none none]
      (List.Forall₂.cons rfl (List.Forall₂.cons rfl List.Forall₂.nil))

/-! ## C4: repeated adjust — evaluation precedence vs the recorded adjustments -/

/-- C4 (amended): `adjust(adjust(S, A), B)` evaluates with most-recent-wins
precedence (caller-supplied local options over `B` over `A`: the resolved
local options are `A` merged under `B` merged under the caller's), but the
definition's `adjustments` field records the cumulative merge with
EARLIEST-adjust-wins for overlapping keys (`B` merged underneath `A`, which is
itself merged underneath the wrapped spec's pre-existing adjustments) — not
most-recent-wins as the original claim stated. -/
theorem claim_C4 {T : Type} (S : Spec T) (A B : LocalOpts) (_hver : S.version = 1)
    (v : Value) (o : SpecOptions) :
    ((adjust (adjust S A) B).eval v o =
      S.eval v { local' := some (LocalOpts.merge A (LocalOpts.merge B (o.local'.getD LocalOpts.empty))),
                 global := o.global }) ∧
    ((adjust (adjust S A) B).definition.adjustments =
      some (LocalOpts.merge B (LocalOpts.merge A (S.definition.adjustments.getD LocalOpts.empty)))) := by
  obtain ⟨ver, ev, d⟩ := S
  cases d
  exact ⟨rfl, rfl⟩

/-- C4 counterexample: with `A = (strict: false)` and
`B = (strict: true, failEarly: true)` the recorded `adjustments` field is NOT
the most-recent-wins merge of `A` and `B` (the code keeps `strict: false` from
the earlier adjust; the claim demands `strict: true` from the later one). -/
theorem claim_C4_counterexample :
    ¬ ((adjust (adjust typeNumber { strict := some false })
          { strict := some true, failEarly := some true }).definition.adjustments =
        some (LocalOpts.merge { strict := some false }
          { strict := some true, failEarly := some true })) := by
  decide

/-- C4 witness: the amended claim applied at concrete specs and options — the
recorded adjustments keep the earliest `strict` and pick up the later
`failEarly`. -/
theorem claim_C4_witness :
    (adjust (adjust typeNumber { strict := some false })
        { strict := some true, failEarly := some true }).definition.adjustments =
      some { failEarly := some true, strict := some false } :=
  ((claim_C4 typeNumber { strict := some false }
      { strict := some true, failEarly := some true } rfl Value.vnull
      { local' := none, global := {} }).2).trans (by decide)

/-! ## C3: strict objects — per-key extra failures in one combined list -/

theorem objExtraLoop_noFE (schema : Schema) :
    ∀ (fields : List (String × Value)) (acc : List VFail),
      objExtraLoop schema false fields acc = acc ++ extrasOfFields schema fields
  | [], acc => by simp [objExtraLoop, extrasOfFields]
  | (k, v) :: rest, acc => by
    by_cases h : schemaHas schema k
    · simp only [objExtraLoop, Bool.false_and, Bool.false_eq_true, if_false, h, if_true]
      rw [objExtraLoop_noFE schema rest acc]
      simp [extrasOfFields, h]
    · simp only [objExtraLoop, Bool.false_and, Bool.false_eq_true, if_false, h, if_false]
      rw [objExtraLoop_noFE schema rest (acc ++ [extraAttrFail k v])]
      simp [extrasOfFields, h]

theorem objAttrLoop_noFE (g : GlobalOptions) (fields : List (String × Value)) :
    ∀ (schema : Schema) (errs : List VFail) (model : List (String × Value)),
      objAttrLoop g false fields schema errs model =
        (errs ++ attrErrsOf g fields schema, model ++ modelOf g fields schema)
  | [], errs, model => by simp [objAttrLoop, attrErrsOf, modelOf]
  | (attr, se) :: rest, errs, model => by
    have IH : ∀ (e : List VFail) (m : List (String × Value)),
        objAttrLoop g false fields rest e m =
          (e ++ attrErrsOf g fields rest, m ++ modelOf g fields rest) :=
      fun e m => objAttrLoop_noFE g fields rest e m
    cases hlook : lookupField fields attr with
    | none =>
      cases hopt : se.optional with
      | false =>
        cases hdv : se.defaultValue with
        | none =>
          simp [objAttrLoop, hlook, hopt, hdv, IH, attrErrsOf, modelOf,
            List.filterMap_cons, List.append_assoc]
        | some d =>
          simp [objAttrLoop, hlook, hopt, hdv, IH, attrErrsOf, modelOf,
            List.filterMap_cons, List.append_assoc]
      | true =>
        cases hdv : se.defaultValue with
        | none =>
          simp [objAttrLoop, hlook, hopt, hdv, IH, attrErrsOf, modelOf,
            List.filterMap_cons, List.append_assoc]
        | some d =>
          simp [objAttrLoop, hlook, hopt, hdv, IH, attrErrsOf, modelOf,
            List.filterMap_cons, List.append_assoc]
    | some v =>
      cases heval : se.spec.eval v { local' := none, global := g } with
      | ok t =>
        simp [objAttrLoop, hlook, heval, IH, attrErrsOf, modelOf,
          List.filterMap_cons, List.append_assoc]
      | error f =>
        simp [objAttrLoop, hlook, heval, IH, attrErrsOf, modelOf,
          List.filterMap_cons, List.append_assoc]

/-- C3: with `strict` resolved true (the object default) and exhaustive
(non-fail-early) evaluation, every input key not in the schema produces its
own per-key extra-attribute failure, in input-key iteration order, evaluated
before the attribute scan; these accumulate into the same single list as the
missing/invalid attribute failures, and the aggregate failure wraps that
combined list. -/
theorem claim_C3 (schema : Schema) (fields : List (String × Value)) (o : SpecOptions)
    (hstrict : resolvedLocal LocalOpts.strict true o = true)
    (hfe : resolvedFailEarly o = false) :
    (typeObject schema).eval (.vobj fields) o =
      (if (extrasOfFields schema fields ++ attrErrsOf o.global fields schema).isEmpty
       then .ok (.vobj (modelOf o.global fields schema))
       else .error (.mk "type.object.invalid_attribute_data" (.vobj fields)
         "Object validation failed." none none
         (some (extrasOfFields schema fields ++ attrErrsOf o.global fields schema)))) := by
  simp only [typeObject, hstrict, hfe, if_true]
  rw [objExtraLoop_noFE schema fields [], objAttrLoop_noFE o.global fields schema]
  simp

/-- C3 witness: a strict object with one valid attribute value, one invalid
attribute value, one missing attribute and two extra input keys: the extra-key
failures come first, one per key in input order, then the invalid and missing
attribute failures, all in one wrapped list. -/
theorem claim_C3_witness :
    (typeObject [("a", { spec := typeNumber }), ("m", { spec := typeNumber })]).eval
        (.vobj [("x", Value.vstr "e"), ("a", Value.vstr "bad"), ("y", Value.vnum 9)])
        { local' := none, global := {} } =
      .error (.mk "type.object.invalid_attribute_data"
        (.vobj [("x", Value.vstr "e"), ("a", Value.vstr "bad"), ("y", Value.vnum 9)])
        "Object validation failed." none none
        (some [extraAttrFail "x" (Value.vstr "e"), extraAttrFail "y" (Value.vnum 9),
          invalidAttrFail "a" (Value.vstr "bad")
            (.mk "type.number.not_a_number" (Value.vstr "bad") "Not a number." none none none),
          missingAttrFail "m"])) := by
  have h := claim_C3 [("a", { spec := typeNumber }), ("m", { spec := typeNumber })]
    [("x", Value.vstr "e"), ("a", Value.vstr "bad"), ("y", Value.vnum 9)]
    { local' := none, global := {} } rfl rfl
  rw [h]
  rfl

/-! ## C6: array — skip-invalid and fail-early -/

theorem arrElemLoop_skip (g : GlobalOptions) (S : Spec Value) (fe : Bool) :
    ∀ (xs : List Value) (i : Nat) (out : List Value),
      arrElemLoop g fe true S xs i [] out = ([], out ++ arraySuccesses g S xs)
  | [], i, out => by simp [arrElemLoop, arraySuccesses]
  | x :: rest, i, out => by
    cases heval : S.eval x { local' := none, global := g } with
    | ok t =>
      simp only [arrElemLoop, List.isEmpty_nil, Bool.not_true, Bool.and_false,
        Bool.false_eq_true, if_false, heval]
      rw [arrElemLoop_skip g S fe rest (i + 1) (out ++ [t])]
      simp [arraySuccesses, heval, List.filterMap_cons, Except.toOption]
    | error f =>
      simp only [arrElemLoop, List.isEmpty_nil, Bool.not_true, Bool.and_false,
        Bool.false_eq_true, if_false, heval, if_true]
      rw [arrElemLoop_skip g S fe rest (i + 1) out]
      simp [arraySuccesses, heval, List.filterMap_cons, Except.toOption]

theorem arrElemLoop_stop (g : GlobalOptions) (S : Spec Value) (si : Bool) :
    ∀ (xs : List Value) (i : Nat) (errs : List VFail) (out : List Value), errs ≠ [] →
      arrElemLoop g true si S xs i errs out = (errs, out)
  | [], _, errs, out, _ => rfl
  | x :: rest, i, errs, out, h => by
    have : errs.isEmpty = false := by
      cases errs with
      | nil => exact absurd rfl h
      | cons a l => rfl
    simp [arrElemLoop, this]

theorem arrElemLoop_failEarly (g : GlobalOptions) (S : Spec Value) :
    ∀ (xs : List Value) (i : Nat) (out : List Value),
      (arrayFailuresFrom g S xs i = [] ∧
        arrElemLoop g true false S xs i [] out = ([], out ++ arraySuccesses g S xs)) ∨
      (∃ w rest out', arrayFailuresFrom g S xs i = w :: rest ∧
        arrElemLoop g true false S xs i [] out = ([w], out'))
  | [], i, out => Or.inl ⟨rfl, by simp [arrElemLoop, arraySuccesses]⟩
  | x :: rest, i, out => by
    cases heval : S.eval x { local' := none, global := g } with
    | ok t =>
      rcases arrElemLoop_failEarly g S rest (i + 1) (out ++ [t]) with ⟨hfail, hloop⟩ |
        ⟨w, frest, out', hfail, hloop⟩
      · refine Or.inl ⟨?_, ?_⟩
        · simp [arrayFailuresFrom, heval, hfail]
        · simp only [arrElemLoop, List.isEmpty_nil, Bool.not_true, Bool.and_false,
            Bool.false_eq_true, if_false, heval]
          rw [hloop]
          simp [arraySuccesses, heval, List.filterMap_cons, Except.toOption]
      · refine Or.inr ⟨w, frest, out', ?_, ?_⟩
        · simp [arrayFailuresFrom, heval, hfail]
        · simp only [arrElemLoop, List.isEmpty_nil, Bool.not_true, Bool.and_false,
            Bool.false_eq_true, if_false, heval]
          rw [hloop]
    | error f =>
      refine Or.inr ⟨invalidElemFail i x f, arrayFailuresFrom g S rest (i + 1), out, ?_, ?_⟩
      · simp [arrayFailuresFrom, heval]
      · simp only [arrElemLoop, List.isEmpty_nil, Bool.not_true, Bool.and_false,
          Bool.false_eq_true, if_false, heval, List.nil_append]
        exact arrElemLoop_stop g S false rest (i + 1) [invalidElemFail i x f] out
          (by simp)

/-- C6: for `Type.array(elementSpec)` on an array input, when `skipInvalid`
resolves true every failing element is dropped from both the output and the
error collection and evaluation succeeds with the passing elements in their
relative order (whatever `failEarly` resolves to); when `failEarly` resolves
true (and `skipInvalid` false), the scan stops after the first retained
failure: the aggregate wraps exactly the first wrapped element failure of the
exhaustive scan, and when no element fails the full output array is
returned. -/
theorem claim_C6 (S : Spec Value) (xs : List Value) (o : SpecOptions) :
    (resolvedLocal LocalOpts.skipInvalid false o = true →
      (typeArray S).eval (.varr xs) o = .ok (.varr (arraySuccesses o.global S xs))) ∧
    (resolvedFailEarly o = true → resolvedLocal LocalOpts.skipInvalid false o = false →
      (typeArray S).eval (.varr xs) o =
        (match arrayFailuresFrom o.global S xs 0 with
         | [] => .ok (.varr (arraySuccesses o.global S xs))
         | w :: _ => .error (.mk "type.array.invalid_elements" (.varr xs)
             "Array validation failed." none none (some [w])))) := by
  constructor
  · intro hskip
    simp only [typeArray, hskip]
    rw [arrElemLoop_skip o.global S (resolvedFailEarly o) xs 0 []]
    simp
  · intro hfe hskip
    simp only [typeArray, hskip, hfe]
    rcases arrElemLoop_failEarly o.global S xs 0 [] with ⟨hfail, hloop⟩ |
      ⟨w, frest, out', hfail, hloop⟩
    · rw [hloop, hfail]
      simp
    · rw [hloop, hfail]
      simp

/-- C6 witness: `[1,"x","y",4]` against an array-of-number spec with
`skipInvalid: true` succeeds with `[1,4]`; with `failEarly: true` (global) and
no skipping, the aggregate wraps only the first element failure. -/
theorem claim_C6_witness :
    (typeArray typeNumber).eval
        (.varr [Value.vnum 1, Value.vstr "x", Value.vstr "y", Value.vnum 4])
        { local' := some { skipInvalid := some true }, global := {} } =
      .ok (.varr [Value.vnum 1, Value.vnum 4]) ∧
    (typeArray typeNumber).eval (.varr [Value.vstr "x", Value.vstr "y"])
        { local' := none, global := { failEarly := some true } } =
      .error (.mk "type.array.invalid_elements" (.varr [Value.vstr "x", Value.vstr "y"])
        "Array validation failed." none none
        (some [invalidElemFail 0 (Value.vstr "x")
          (.mk "type.number.not_a_number" (Value.vstr "x") "Not a number." none none none)])) := by
  constructor
  · have h := (claim_C6 typeNumber
      [Value.vnum 1, Value.vstr "x", Value.vstr "y", Value.vnum 4]
      { local' := some { skipInvalid := some true }, global := {} }).1 rfl
    rw [h]
    rfl
  · have h := (claim_C6 typeNumber [Value.vstr "x", Value.vstr "y"]
      { local' := none, global := { failEarly := some true } }).2 rfl rfl
    rw [h]
    rfl

/-! ## C9: nested evaluations receive only the global options -/

theorem eitherLoop_congr {T : Type} (v : Value) (g : GlobalOptions) :
    ∀ {specs specs' : List (Spec T)}, List.Forall₂ (EvalAgree g) specs specs' →
      ∀ acc : List VFail, eitherLoop v g specs acc = eitherLoop v g specs' acc
  | _, _, List.Forall₂.nil, acc => rfl
  | _, _, List.Forall₂.cons hss hrest, acc => by
    rename_i s s' specs specs'
    simp only [eitherLoop, hss v]
    cases s'.eval v { local' := none, global := g } with
    | ok t => rfl
    | error f => exact eitherLoop_congr v g hrest (acc ++ [f])

theorem arrElemLoop_congr (g : GlobalOptions) (fe si : Bool) {S S' : Spec Value}
    (hSS : EvalAgree g S S') :
    ∀ (xs : List Value) (i : Nat) (errs : List VFail) (out : List Value),
      arrElemLoop g fe si S xs i errs out = arrElemLoop g fe si S' xs i errs out
  | [], _, _, _ => rfl
  | x :: rest, i, errs, out => by
    have IH : ∀ (j : Nat) (e : List VFail) (o : List Value),
        arrElemLoop g fe si S rest j e o = arrElemLoop g fe si S' rest j e o :=
      fun j e o => arrElemLoop_congr g fe si hSS rest j e o
    simp only [arrElemLoop, hSS x]
    cases S'.eval x { local' := none, global := g } <;> simp [IH]

theorem schemaHas_congr (g : GlobalOptions) :
    ∀ {schema schema' : Schema}, SchemaAgree g schema schema' →
      ∀ k : String, schemaHas schema k = schemaHas schema' k
  | _, _, List.Forall₂.nil, _ => rfl
  | _, _, List.Forall₂.cons hpq hrest, k => by
    rename_i p q schema schema'
    simp only [schemaHas, List.any_cons]
    rw [hpq.1, show (List.any schema fun p => p.1 = k) = schemaHas schema k from rfl,
      show (List.any schema' fun p => p.1 = k) = schemaHas schema' k from rfl,
      schemaHas_congr g hrest k]

theorem objExtraLoop_congr (g : GlobalOptions) (fe : Bool) {schema schema' : Schema}
    (hs : SchemaAgree g schema schema') :
    ∀ (fields : List (String × Value)) (acc : List VFail),
      objExtraLoop schema fe fields acc = objExtraLoop schema' fe fields acc
  | [], _ => rfl
  | (k, v) :: rest, acc => by
    have IH : ∀ a : List VFail, objExtraLoop schema fe rest a = objExtraLoop schema' fe rest a :=
      fun a => objExtraLoop_congr g fe hs rest a
    simp only [objExtraLoop, schemaHas_congr g hs k]
    simp [IH]

theorem objAttrLoop_congr (g : GlobalOptions) (fe : Bool) (fields : List (String × Value)) :
    ∀ {schema schema' : Schema}, SchemaAgree g schema schema' →
      ∀ (errs : List VFail) (model : List (String × Value)),
        objAttrLoop g fe fields schema errs model = objAttrLoop g fe fields schema' errs model
  | _, _, List.Forall₂.nil, _, _ => rfl
  | _, _, List.Forall₂.cons hpq hrest, errs, model => by
    rename_i p q schema schema'
    obtain ⟨hname, hopt, hdv, hagree⟩ := hpq
    obtain ⟨attr, se⟩ := p
    obtain ⟨attr', se'⟩ := q
    simp only at hname hopt hdv hagree
    subst hname
    have IH : ∀ (e : List VFail) (m : List (String × Value)),
        objAttrLoop g fe fields schema e m = objAttrLoop g fe fields schema' e m :=
      fun e m => objAttrLoop_congr g fe fields hrest e m
    cases hlook : lookupField fields attr with
    | none =>
      rw [objAttrLoop.eq_def, objAttrLoop.eq_def]
      simp only [hlook, hopt, hdv]
      simp [IH]
    | some v =>
      rw [objAttrLoop.eq_def, objAttrLoop.eq_def]
      simp only [hlook, hopt, hdv, hagree v]
      cases se'.spec.eval v { local' := none, global := g } <;> simp [IH]

theorem mapLoop_congr (g : GlobalOptions) (fe sk sv : Bool) {K K' : Spec String}
    {V V' : Spec Value} (hK : EvalAgree g K K') (hV : EvalAgree g V V') :
    ∀ (fields : List (String × Value)) (errs : List VFail) (out : List (String × Value)),
      mapLoop g fe sk sv K V fields errs out = mapLoop g fe sk sv K' V' fields errs out
  | [], _, _ => rfl
  | (dk, dv) :: rest, errs, out => by
    have IH : ∀ (e : List VFail) (o : List (String × Value)),
        mapLoop g fe sk sv K V rest e o = mapLoop g fe sk sv K' V' rest e o :=
      fun e o => mapLoop_congr g fe sk sv hK hV rest e o
    simp only [mapLoop, hK (.vstr dk)]
    cases K'.eval (.vstr dk) { local' := none, global := g } with
    | error f => simp [IH]
    | ok rk =>
      simp only [hV dv]
      cases V'.eval dv { local' := none, global := g } <;> simp [IH]

/-- C9: every composite type (array, object, map, either) passes each nested
spec an options record containing only the current global options and no local
options: the evaluation result depends on the nested specs only through their
behaviour at `(no local options, same global options)`, so parent-local
options never propagate downward, while the global options reach every nested
evaluation unchanged; `either` moreover ignores its own local options
entirely. -/
theorem claim_C9 (g : GlobalOptions) :
    (∀ {S S' : Spec Value}, EvalAgree g S S' → ∀ (v : Value) (l : Option LocalOpts),
      (typeArray S).eval v { local' := l, global := g } =
        (typeArray S').eval v { local' := l, global := g }) ∧
    (∀ {schema schema' : Schema}, SchemaAgree g schema schema' →
      ∀ (v : Value) (l : Option LocalOpts),
        (typeObject schema).eval v { local' := l, global := g } =
          (typeObject schema').eval v { local' := l, global := g }) ∧
    (∀ {K K' : Spec String} {V V' : Spec Value}, EvalAgree g K K' → EvalAgree g V V' →
      ∀ (v : Value) (l : Option LocalOpts),
        (typeMap K V).eval v { local' := l, global := g } =
          (typeMap K' V').eval v { local' := l, global := g }) ∧
    (∀ {T : Type} {specs specs' : List (Spec T)}, List.Forall₂ (EvalAgree g) specs specs' →
      ∀ (v : Value) (l l' : Option LocalOpts),
        (eitherSpec specs).eval v { local' := l, global := g } =
          (eitherSpec specs').eval v { local' := l', global := g }) := by
  refine ⟨?_, ?_, ?_, ?_⟩
  · intro S S' hSS v l
    cases v <;> try rfl
    case varr xs =>
      simp only [typeArray]
      rw [arrElemLoop_congr g (resolvedFailEarly { local' := l, global := g })
        (resolvedLocal LocalOpts.skipInvalid false { local' := l, global := g }) hSS xs 0 [] []]
  · intro schema schema' hs v l
    cases v <;> try rfl
    case vobj fields =>
      simp only [typeObject]
      rw [objExtraLoop_congr g (resolvedFailEarly { local' := l, global := g }) hs fields []]
      rw [objAttrLoop_congr g (resolvedFailEarly { local' := l, global := g }) fields hs
        (if resolvedLocal LocalOpts.strict true { local' := l, global := g } = true then
          objExtraLoop schema' (resolvedFailEarly { local' := l, global := g }) fields []
        else []) []]
  · intro K K' V V' hK hV v l
    cases v <;> try rfl
    case vobj fields =>
      simp only [typeMap]
      rw [mapLoop_congr g (resolvedFailEarly { local' := l, global := g })
        (resolvedLocal LocalOpts.skipInvalidKeys false { local' := l, global := g })
        (resolvedLocal LocalOpts.skipInvalidValues false { local' := l, global := g })
        hK hV fields [] []]
  · intro T specs specs' hss v l l'
    simp [eitherSpec, eitherLoop_congr v g hss []]

/-! ## C5: extractAliases — stubbing and the recorded expansions -/

mutual
theorem exA_eq : ∀ (d : SpecDef) (m : AliasMap),
    (exA d m).1 = stubify d ∧
      ∀ a, ((exA d m).2).find a = (recordedAlias a d <|> m.find a)
  | .mk t n al c ad f dv ds, m => by
    obtain ⟨h1, h2⟩ := exAOpt_eq n m
    cases hal : al with
    | some name =>
      constructor
      · simp [exA, hal, stubify]
      · intro a
        by_cases ha : a = name
        · subst ha
          simp only [exA, recordedAlias]
          rw [find_upsert_self]
          simp [h1]
        · simp only [exA, recordedAlias]
          rw [find_upsert_other _ _ _ _ ha]
          rw [h2 a]
          have : ¬ (some name = some a) := by
            intro hcon
            exact ha (Option.some.inj hcon).symm
          simp [this]
    | none =>
      constructor
      · simp [exA, stubify, h1]
      · intro a
        simp only [exA, recordedAlias]
        rw [h2 a]
        simp

theorem exAOpt_eq : ∀ (n : Option (List (String × SpecDef))) (m : AliasMap),
    (exAOpt n m).1 = stubifyOpt n ∧
      ∀ a, ((exAOpt n m).2).find a = (recordedAliasOpt a n <|> m.find a)
  | none, m => ⟨rfl, fun a => by simp [exAOpt, recordedAliasOpt]⟩
  | some l, m => by
    obtain ⟨h1, h2⟩ := exAList_eq l m
    exact ⟨by simp [exAOpt, stubifyOpt, h1], fun a => by
      simpa [exAOpt, recordedAliasOpt] using h2 a⟩

theorem exAList_eq : ∀ (l : List (String × SpecDef)) (m : AliasMap),
    (exAList l m).1 = stubifyList l ∧
      ∀ a, ((exAList l m).2).find a = (recordedAliasList a l <|> m.find a)
  | [], m => ⟨rfl, fun a => by simp [exAList, recordedAliasList]⟩
  | (k, d) :: rest, m => by
    obtain ⟨hd1, hd2⟩ := exA_eq d m
    obtain ⟨hr1, hr2⟩ := exAList_eq rest (exA d m).2
    constructor
    · simp [exAList, stubifyList, hd1, hr1]
    · intro a
      have : ((exAList ((k, d) :: rest) m).2) = (exAList rest (exA d m).2).2 := rfl
      rw [this, hr2 a, hd2 a]
      have hrec : recordedAliasList a ((k, d) :: rest) =
          (recordedAliasList a rest <|> recordedAlias a d) := by
        simp only [recordedAliasList]
        cases recordedAliasList a rest <;> rfl
      rw [hrec, optOr_assoc]
end

mutual
theorem recordedAlias_isSome (a : String) : ∀ d : SpecDef,
    (recordedAlias a d).isSome = hasAliasOcc a d
  | .mk t n al c ad f dv ds => by
    by_cases h : al = some a
    · simp [recordedAlias, hasAliasOcc, h]
    · simp [recordedAlias, hasAliasOcc, h, recordedAliasOpt_isSome a n]

theorem recordedAliasOpt_isSome (a : String) : ∀ n : Option (List (String × SpecDef)),
    (recordedAliasOpt a n).isSome = hasAliasOccOpt a n
  | none => rfl
  | some l => by simp [recordedAliasOpt, hasAliasOccOpt, recordedAliasList_isSome a l]

theorem recordedAliasList_isSome (a : String) : ∀ l : List (String × SpecDef),
    (recordedAliasList a l).isSome = hasAliasOccList a l
  | [] => rfl
  | (k, d) :: rest => by
    simp only [recordedAliasList, hasAliasOccList]
    cases hr : recordedAliasList a rest with
    | some r =>
      have := recordedAliasList_isSome a rest
      rw [hr] at this
      simp [← this]
    | none =>
      have := recordedAliasList_isSome a rest
      rw [hr] at this
      simp [recordedAlias_isSome a d, ← this]
end

/-- C5: `extractAliases` returns (a) the definition tree in which every node
carrying an alias is replaced by the stub (repeats collapsing to the same
stub), and (b) an alias mapping whose entry for each name is the recorded
expansion: the node's own fully-expanded definition (children alias-extracted)
when the node itself carries the alias — so an outer occurrence always wins
over repeats nested more deeply inside it — and otherwise the record of the
last child subtree containing the name; a name is present in the mapping
exactly when some node carries it. -/
theorem claim_C5 (d : SpecDef) :
    (extractAliases d).1 = stubify d ∧
    (∀ a, ((extractAliases d).2).find a = recordedAlias a d) ∧
    (∀ a, (recordedAlias a d).isSome = hasAliasOcc a d) ∧
    (∀ a, d.alias = some a → ((extractAliases d).2).find a = some (expandDef d)) := by
  obtain ⟨h1, h2⟩ := exA_eq d []
  refine ⟨h1, ?_, fun a => recordedAlias_isSome a d, ?_⟩
  · intro a
    have := h2 a
    simpa [AliasMap.find, optOr_none] using this
  · intro a hal
    have hfind : ((extractAliases d).2).find a = recordedAlias a d := by
      have := h2 a
      simpa [AliasMap.find, optOr_none] using this
    rw [hfind]
    cases d with
    | mk t n al c ad f dv ds =>
      simp only [SpecDef.alias] at hal
      subst hal
      simp [recordedAlias, expandDef]

/-- C5 witness: an aliased array node whose element carries the same alias
name: the outer expansion (with the inner repeat collapsed to a stub) is the
one recorded in the mapping, and the returned tree is the stub. -/
theorem claim_C5_witness :
    ((extractAliases (SpecDef.mk "array"
        (some [("element", SpecDef.mk "number" none (some "dup") none none none none none)])
        (some "dup") none none none none none)).2).find "dup" =
      some (ADef.node "array" (some [("element", ADef.stub "dup")]) (some "dup")
        none none none none none) ∧
    (extractAliases (SpecDef.mk "array"
        (some [("element", SpecDef.mk "number" none (some "dup") none none none none none)])
        (some "dup") none none none none none)).1 = ADef.stub "dup" := by
  constructor
  · exact ((claim_C5 (SpecDef.mk "array"
      (some [("element", SpecDef.mk "number" none (some "dup") none none none none none)])
      (some "dup") none none none none none)).2.2.2 "dup" rfl).trans (by rfl)
  · exact ((claim_C5 (SpecDef.mk "array"
      (some [("element", SpecDef.mk "number" none (some "dup") none none none none none)])
      (some "dup") none none none none none)).1).trans (by rfl)

/-- A probe spec that behaves like `typeNumber` when called with no local
options but fails with a distinctive code whenever local options are present:
used to witness that composites never pass local options downward. -/
def probeSpec : Spec Value where
  version := 1
  eval := fun v o =>
    match o.local' with
    | none => typeNumber.eval v o
    | some _ => .error (.mk "local.options.leaked" v "Local options leaked." none none none)
  definition := .ofType "number"

/-- C9 witness: the array composite, evaluated WITH local options, gives the
same result over `typeNumber` and over the probe spec (which would fail if it
ever saw local options), and `either` does the same while also ignoring its
own local options. -/
theorem claim_C9_witness :
    (typeArray typeNumber).eval (.varr [Value.vnum 1, Value.vstr "x"])
        { local' := some { failEarly := some true }, global := {} } =
      (typeArray probeSpec).eval (.varr [Value.vnum 1, Value.vstr "x"])
        { local' := some { failEarly := some true }, global := {} } ∧
    (eitherSpec [typeNumber]).eval (Value.vnum 7)
        { local' := some { failEarly := some true }, global := {} } =
      (eitherSpec [probeSpec]).eval (Value.vnum 7) { local' := none, global := {} } := by
  constructor
  · exact (claim_C9 {}).1 (fun w => rfl) (.varr [Value.vnum 1, Value.vstr "x"])
      (some { failEarly := some true })
  · exact (claim_C9 {}).2.2.2 (List.Forall₂.cons (fun w => rfl) List.Forall₂.nil)
      (Value.vnum 7) (some { failEarly := some true }) none
